import Mathlib

/-!
Verification development for the `url_shortener` repository.

Strings from the Python source are embedded as `List Char` (named `Str`
below).  Pure helpers (`base62`, URL parsing/normalisation) become Lean
functions; the stateful service and in-memory repository become explicit
state passing over a heap of `ShortURL` objects, so that Python reference
semantics (mutating the stored entity, not a copy) are captured exactly.
The file is organised as: definitions (embedding of the source), then
theorems.
-/

/-- Strings of the embedded program: Python `str` as a list of characters. -/
abbrev Str := List Char

/-! ## Definitions: `utils/base62.py` -/

/-- `ALPHABET = string.digits + string.ascii_lowercase + string.ascii_uppercase`. -/
def ALPHABET : Str :=
  "0123456789abcdefghijklmnopqrstuvwxyzABCDEFGHIJKLMNOPQRSTUVWXYZ".toList

/-- `BASE = len(ALPHABET)`. -/
def BASE : Nat := ALPHABET.length

/-- Positional dictionary lookup: models membership/lookup in the Python
dict comprehension `{ch: idx for idx, ch in enumerate(ALPHABET)}`. -/
def lookupValue (c : Char) : Str → Nat → Option Nat
  | [], _ => none
  | a :: rest, i => if a = c then some i else lookupValue c rest (i + 1)

/-- `CHAR_TO_VALUE` of `base62.py`: maps a character to its alphabet index. -/
def CHAR_TO_VALUE (c : Char) : Option Nat :=
  lookupValue c ALPHABET 0

/-- The `while number > 0` loop of `encode_base62`, with the final
`reversed` applied: most significant digit first. -/
def encodeLoop (n : Nat) : Str :=
  if h : n = 0 then []
  else
    encodeLoop (n / BASE) ++ [ALPHABET.get ⟨n % BASE, Nat.mod_lt n (by decide)⟩]
decreasing_by exact Nat.div_lt_self (Nat.pos_of_ne_zero h) (by decide)

/-- `encode_base62` of `base62.py`: fails on negative input, `"0"` at zero,
otherwise the base-62 digit string of the number. -/
def encode_base62 (number : Int) : Except String Str :=
  if number < 0 then .error "number must be non-negative"
  else if number = 0 then .ok [ALPHABET.get ⟨0, by decide⟩]
  else .ok (encodeLoop number.toNat)

/-- One iteration of the `for ch in s` loop of `decode_base62`. -/
def decodeStep (acc : Nat) (ch : Char) : Except String Nat :=
  match CHAR_TO_VALUE ch with
  | none => .error "Invalid base62 character"
  | some v => .ok (acc * BASE + v)

/-- `decode_base62` of `base62.py`: folds the characters left to right,
failing on the first character outside the alphabet. -/
def decode_base62 (s : Str) : Except String Nat :=
  s.foldlM decodeStep 0

/-! ## Definitions: Python `urllib.parse` as used by `domain/value_objects.py` -/

/-- Characters CPython `urlsplit` permits in a scheme: ASCII letters,
digits, and the three marks. -/
def isSchemeChar (c : Char) : Bool :=
  c.isAlpha || c.isDigit || c == '+' || c == '-' || c == '.'

/-- Split a list at the first occurrence of `sep`; `none` when absent. -/
def breakAtFirst (sep : Char) : Str → Option (Str × Str)
  | [] => none
  | c :: rest =>
    if c = sep then some ([], rest)
    else
      match breakAtFirst sep rest with
      | some (a, b) => some (c :: a, b)
      | none => none

/-- Split a list at the last occurrence of `sep`; `none` when absent. -/
def breakAtLast (sep : Char) (l : Str) : Option (Str × Str) :=
  match breakAtFirst sep l.reverse with
  | some (a, b) => some (b.reverse, a.reverse)
  | none => none

/-- Python `str.lower` restricted to ASCII letters (the only letters a
scheme can contain, and the host casing the claims are about). -/
def pyLower (s : Str) : Str := s.map Char.toLower

/-- The scheme-stripping step of CPython `urlsplit`: an initial run of
scheme characters beginning with a letter and terminated by a colon is
removed and lowercased; otherwise the scheme is empty. -/
def splitScheme (url : Str) : Str × Str :=
  let pre := url.takeWhile (fun c => c != ':')
  match pre with
  | [] => ([], url)
  | c :: _ =>
    if pre.length < url.length && c.isAlpha && pre.all isSchemeChar then
      (pyLower pre, url.drop (pre.length + 1))
    else ([], url)

/-- The netloc step of CPython `urlsplit`: after a leading `//`, the
netloc runs until the next `/`, `?` or `#`. -/
def splitNetloc (url : Str) : Str × Str :=
  match url with
  | '/' :: '/' :: rest =>
    let nl := rest.takeWhile (fun c => c != '/' && c != '?' && c != '#')
    (nl, rest.drop nl.length)
  | _ => ([], url)

/-- Result of CPython `urlsplit` (params still merged into the path). -/
structure SplitResult where
  scheme : Str
  netloc : Str
  path : Str
  query : Str
  fragment : Str
deriving Repr, DecidableEq

/-- CPython `urlsplit`: strip the scheme, then the netloc, then split the
fragment at the first `#`, then the query at the first `?`. -/
def urlsplit (url : Str) : SplitResult :=
  let p1 := splitScheme url
  let p2 := splitNetloc p1.2
  let p3 :=
    match breakAtFirst '#' p2.2 with
    | some (a, b) => (a, b)
    | none => (p2.2, [])
  let p4 :=
    match breakAtFirst '?' p3.1 with
    | some (a, b) => (a, b)
    | none => (p3.1, [])
  ⟨p1.1, p2.1, p4.1, p4.2, p3.2⟩

/-- Result of CPython `urlparse`: `urlsplit` plus the params component. -/
structure ParseResult where
  scheme : Str
  netloc : Str
  path : Str
  params : Str
  query : Str
  fragment : Str
deriving Repr, DecidableEq

/-- The schemes using parameters that this development can reach (subset
of CPython `uses_params`; URL construction only admits http and https). -/
def usesParams (scheme : Str) : Bool :=
  scheme == [] || scheme == "http".toList || scheme == "https".toList ||
    scheme == "ftp".toList

/-- CPython `_splitparams`: split the params off the path at the first
semicolon of the last path segment. -/
def splitparams (url : Str) : Str × Str :=
  match breakAtLast '/' url with
  | some (a, b) =>
    match breakAtFirst ';' b with
    | some (b1, b2) => (a ++ '/' :: b1, b2)
    | none => (url, [])
  | none =>
    match breakAtFirst ';' url with
    | some (u1, u2) => (u1, u2)
    | none => (url, [])

/-- CPython `urlparse`: `urlsplit`, then split params off the path for
schemes that use them. -/
def urlparse (url : Str) : ParseResult :=
  let s := urlsplit url
  if usesParams s.scheme && s.path.contains ';' then
    let pp := splitparams s.path
    ⟨s.scheme, s.netloc, pp.1, pp.2, s.query, s.fragment⟩
  else ⟨s.scheme, s.netloc, s.path, [], s.query, s.fragment⟩

/-- CPython `urlunsplit`: reassemble the components. -/
def urlunsplit (scheme netloc path query fragment : Str) : Str :=
  let u1 :=
    if netloc ≠ [] ∨ path.take 2 = ['/', '/'] then
      '/' :: '/' ::
        (netloc ++ (if path ≠ [] ∧ path.take 1 ≠ ['/'] then '/' :: path else path))
    else path
  let u2 := if scheme ≠ [] then scheme ++ ':' :: u1 else u1
  let u3 := if query ≠ [] then u2 ++ '?' :: query else u2
  if fragment ≠ [] then u3 ++ '#' :: fragment else u3

/-- CPython `urlunparse`: re-attach params to the path, then `urlunsplit`. -/
def urlunparse (p : ParseResult) : Str :=
  urlunsplit p.scheme p.netloc
    (if p.params ≠ [] then p.path ++ ';' :: p.params else p.path) p.query p.fragment

/-! ## Definitions: `domain/value_objects.py` -/

namespace URL

/-- URL value construction (`URL.__post_init__`): fail when the scheme or
netloc is missing or the scheme is not http/https; otherwise lowercase
scheme and netloc and reassemble.  `none` models the raised ValueError. -/
def make (raw : Str) : Option Str :=
  let parsed := urlparse raw
  if parsed.scheme = [] ∨ parsed.netloc = [] then none
  else if parsed.scheme ≠ "http".toList ∧ parsed.scheme ≠ "https".toList then none
  else
    some (urlunparse
      { parsed with scheme := pyLower parsed.scheme, netloc := pyLower parsed.netloc })

end URL

/-! ## Definitions: `domain/models.py` (absent from the source tree) -/

/-- Modelled from the spec: the `ShortURL` entity of `domain/models.py`,
which is missing from `src` (only its importers and tests are present).
Per the spec it is a mutable record with an integer `id` assigned by the
Repository, a normalised `original_url`, a unique `short_code`, and a
non-negative `hits` counter that starts at 0. -/
structure ShortURL where
  id : Nat
  original_url : Str
  short_code : Str
  hits : Nat
deriving Repr, DecidableEq

/-- Modelled from the spec: `increment_hits` raises the counter by
exactly 1 and is the only mutation of a stored entity. -/
def ShortURL.increment_hits (e : ShortURL) : ShortURL :=
  { e with hits := e.hits + 1 }

/-! ## Definitions: heap of entity objects (Python reference semantics) -/

/-- Object references: Python object identity for `ShortURL` instances. -/
abbrev Ref := Nat

/-- Python-dict lookup on an association list (keys are unique). -/
def dictGet {κ α : Type} [DecidableEq κ] (k : κ) : List (κ × α) → Option α
  | [] => none
  | (k1, v) :: rest => if k1 = k then some v else dictGet k rest

/-- Python-dict insert-or-overwrite on an association list. -/
def dictInsert {κ α : Type} [DecidableEq κ] (k : κ) (v : α) :
    List (κ × α) → List (κ × α)
  | [] => [(k, v)]
  | (k1, v1) :: rest =>
    if k1 = k then (k, v) :: rest else (k1, v1) :: dictInsert k v rest

/-- All allocated `ShortURL` objects.  Entity mutation happens here, so an
update is visible through every index holding the same reference. -/
structure Heap where
  objs : List (Ref × ShortURL)
  next : Ref
deriving Repr, DecidableEq

def Heap.empty : Heap := ⟨[], 0⟩

def Heap.get (h : Heap) (r : Ref) : Option ShortURL :=
  dictGet r h.objs

def Heap.alloc (h : Heap) (e : ShortURL) : Ref × Heap :=
  (h.next, ⟨dictInsert h.next e h.objs, h.next + 1⟩)

def Heap.set (h : Heap) (r : Ref) (e : ShortURL) : Heap :=
  ⟨dictInsert r e h.objs, h.next⟩

/-! ## Definitions: `repositories/in_memory_repository.py` -/

/-- The mutable state of `InMemoryShortURLRepository`: the code index
`_storage`, the URL index `_url_index` (both holding references to the
same objects), and `_id_counter`. -/
structure RepoState where
  storage : List (Str × Ref)
  url_index : List (Str × Ref)
  id_counter : Nat
deriving Repr, DecidableEq

/-- The state the singleton is created with: empty indices, counter 1. -/
def RepoState.init : RepoState := ⟨[], [], 1⟩

/-- `next_id`: return the counter and advance it. -/
def RepoState.next_id (s : RepoState) : Nat × RepoState :=
  (s.id_counter, { s with id_counter := s.id_counter + 1 })

/-- `add`: index the entity object by its `short_code` and by its
`original_url`.  The fallback branch for a dangling reference is
unreachable: the service only adds a reference it just allocated. -/
def RepoState.add (s : RepoState) (h : Heap) (r : Ref) : RepoState :=
  match h.get r with
  | some e =>
    { s with
      storage := dictInsert e.short_code r s.storage,
      url_index := dictInsert e.original_url r s.url_index }
  | none => s

/-- `get_by_code`: lookup in `_storage`. -/
def RepoState.get_by_code (s : RepoState) (code : Str) : Option Ref :=
  dictGet code s.storage

/-- `get_by_original`: lookup in `_url_index`. -/
def RepoState.get_by_original (s : RepoState) (url : Str) : Option Ref :=
  dictGet url s.url_index

/-- `clear` of `in_memory_repository.py`: empties only `_storage` (the
code index); `_url_index` and `_id_counter` are left as they are. -/
def RepoState.clear (s : RepoState) : RepoState :=
  { s with storage := [] }

/-! ## Definitions: `services/shortener_service.py` -/

/-- The exception classes the service raises.  `URLAlreadyShortenedError`
is imported and raised by the service and expected by the tests, but its
class body is absent from `exceptions.py` (which defines
`URLAlreadyExistsError` instead); the kind is modelled from the spec's
error taxonomy. -/
inductive ExcClass
  | ShortURLNotFoundError
  | URLAlreadyShortenedError
  | InvalidURLError
deriving Repr, DecidableEq

/-- Outcome of a service call: the returned object reference, or the
exception class raised together with the datum interpolated into its
message (the raw URL for `InvalidURLError`, the existing short code for a
duplicate, the queried code for a failed resolve), or divergence of the
collision loop (out of fuel). -/
inductive ServiceResult
  | ok (r : Ref)
  | error (k : ExcClass) (carried : Str)
  | outOfFuel
deriving Repr, DecidableEq

namespace ShortenerService

/-- The `while True` loop of `_generate_unique_code`, with the stateful
generator modelled as a stream of candidates indexed by call number and
an explicit fuel bound on the number of iterations (the source loop has
no bound; `none` models non-termination). -/
def generate_unique_code (gen : Nat → Str) (s : RepoState) : Nat → Nat → Option Str
  | _, 0 => none
  | k, fuel + 1 =>
    let code := gen k
    if s.get_by_code code = none then some code
    else generate_unique_code gen s (k + 1) fuel

/-- `shorten_url`: validate and normalise the raw URL, reject a duplicate
of the normalised URL, generate a collision-free code, allocate an id,
construct the entity with `hits = 0`, persist it in both indices, and
return it. -/
def shorten_url (gen : Nat → Str) (fuel : Nat) (raw : Str) (h : Heap) (s : RepoState) :
    ServiceResult × Heap × RepoState :=
  match URL.make raw with
  | none => (.error .InvalidURLError raw, h, s)
  | some v =>
    match s.get_by_original v with
    | some r =>
      let ecode :=
        match h.get r with
        | some e => e.short_code
        | none => []
      (.error .URLAlreadyShortenedError ecode, h, s)
    | none =>
      match generate_unique_code gen s 0 fuel with
      | none => (.outOfFuel, h, s)
      | some code =>
        let idS := s.next_id
        let e : ShortURL := ⟨idS.1, v, code, 0⟩
        let rH := h.alloc e
        (.ok rH.1, rH.2, idS.2.add rH.2 rH.1)

/-- `resolve_url`: look the code up and increment the found entity's
counter in place.  Note: on a missing code the source raises
`URLAlreadyShortenedError` (with a message saying no mapping was found),
not `ShortURLNotFoundError` as its own docstring declares.  The
dangling-reference branch is unreachable (an indexed reference is live). -/
def resolve_url (code : Str) (h : Heap) (s : RepoState) :
    ServiceResult × Heap × RepoState :=
  match s.get_by_code code with
  | none => (.error .URLAlreadyShortenedError code, h, s)
  | some r =>
    match h.get r with
    | some e => (.ok r, h.set r e.increment_hits, s)
    | none => (.error .URLAlreadyShortenedError code, h, s)

/-- N successive `resolve_url` calls on the same code. -/
def resolveN (code : Str) : Nat → Heap × RepoState → List ServiceResult × Heap × RepoState
  | 0, (h, s) => ([], h, s)
  | n + 1, (h, s) =>
    let step := resolve_url code h s
    let rest := resolveN code n (step.2.1, step.2.2)
    (step.1 :: rest.1, rest.2.1, rest.2.2)

end ShortenerService

/-! ## Definitions: interleaved execution of concurrent shorten requests -/

/-- Combined shared state: the object heap and the singleton repository. -/
structure SysState where
  heap : Heap
  repo : RepoState
deriving Repr, DecidableEq

/-- A thread running `shorten_url`, decomposed at the repository-call
boundary between the `get_by_original` duplicate check and the subsequent
insertion (code generation, `next_id`, `add`).  Each phase is atomic
here; the source takes the phases with no lock held, so every behaviour
of this coarser model is a behaviour of the source. -/
inductive ThreadState
  | ready (raw : Str)
  | pendingInsert (v : Str)
  | finished (res : ServiceResult)
deriving Repr, DecidableEq

/-- One atomic phase of one thread. -/
def threadStep (gen : Nat → Str) (fuel : Nat) (t : ThreadState) (σ : SysState) :
    ThreadState × SysState :=
  match t with
  | .ready raw =>
    match URL.make raw with
    | none => (.finished (.error .InvalidURLError raw), σ)
    | some v =>
      match σ.repo.get_by_original v with
      | some r =>
        let ecode :=
          match σ.heap.get r with
          | some e => e.short_code
          | none => []
        (.finished (.error .URLAlreadyShortenedError ecode), σ)
      | none => (.pendingInsert v, σ)
  | .pendingInsert v =>
    match ShortenerService.generate_unique_code gen σ.repo 0 fuel with
    | none => (.finished .outOfFuel, σ)
    | some code =>
      let idS := σ.repo.next_id
      let e : ShortURL := ⟨idS.1, v, code, 0⟩
      let rH := σ.heap.alloc e
      (.finished (.ok rH.1), ⟨rH.2, idS.2.add rH.2 rH.1⟩)
  | .finished res => (.finished res, σ)

/-- Run a schedule: at each step the named thread takes its next atomic
phase. -/
def runSchedule (gen : Nat → Str) (fuel : Nat) :
    List Nat → List ThreadState × SysState → List ThreadState × SysState
  | [], st => st
  | i :: rest, (ts, σ) =>
    match ts.get? i with
    | none => runSchedule gen fuel rest (ts, σ)
    | some t =>
      let step := threadStep gen fuel t σ
      runSchedule gen fuel rest (ts.set i step.1, step.2)

/-- How many entries of the code index hold an entity whose
`original_url` is `u`. -/
def storedWithOriginal (h : Heap) (s : RepoState) (u : Str) : Nat :=
  (s.storage.filter (fun p =>
    match h.get p.2 with
    | some e => e.original_url == u
    | none => false)).length

/-! ## Definitions: concrete demonstration states for witnesses -/

/-- A deterministic two-candidate generator stream: `a`, then `b` forever. -/
def exGen : Nat → Str := fun k => if k = 0 then "a".toList else "b".toList

/-- A stored demonstration entity. -/
def exEntity : ShortURL := ⟨1, "https://example.com".toList, "abc123".toList, 0⟩

/-- A heap holding just the demonstration entity at reference 0. -/
def exHeap : Heap := ⟨[(0, exEntity)], 1⟩

/-- The repository state after the demonstration entity was added. -/
def exRepo : RepoState :=
  ⟨[("abc123".toList, 0)], [("https://example.com".toList, 0)], 2⟩

/-- Two threads, each about to shorten the same URL, over fresh state. -/
def raceStart : List ThreadState × SysState :=
  ([.ready "https://example.com".toList, .ready "https://example.com".toList],
   ⟨Heap.empty, RepoState.init⟩)

/-- The racing schedule: both duplicate checks run before either insert. -/
def raceSchedule : List Nat := [0, 1, 0, 1]

/-! ## Helper lemmas -/

theorem ALPHABET_length : ALPHABET.length = 62 := by decide

theorem BASE_pos : 0 < BASE := by decide

theorem lookupValue_alphabet_get :
    ∀ i : Fin 62, lookupValue (ALPHABET.get (i.cast ALPHABET_length.symm)) ALPHABET 0 =
      some i.val := by decide

theorem CHAR_TO_VALUE_get (r : Nat) (h : r < ALPHABET.length) :
    CHAR_TO_VALUE (ALPHABET.get ⟨r, h⟩) = some r := by
  have h62 : r < 62 := ALPHABET_length ▸ h
  have := lookupValue_alphabet_get ⟨r, h62⟩
  simpa [CHAR_TO_VALUE, Fin.cast] using this

theorem decode_append_one (xs : Str) (c : Char) :
    decode_base62 (xs ++ [c]) =
      (decode_base62 xs).bind (fun a => decodeStep a c) := by
  simp [decode_base62, List.foldlM_append]
  rfl

theorem decode_encodeLoop (n : Nat) :
    decode_base62 (encodeLoop n) = .ok n := by
  induction n using Nat.strong_induction_on with
  | _ n ih =>
    by_cases h : n = 0
    · subst h
      simp [encodeLoop, decode_base62]
      rfl
    · rw [encodeLoop]
      simp only [h, dite_false]
      rw [decode_append_one, ih (n / BASE) (Nat.div_lt_self (Nat.pos_of_ne_zero h) (by decide))]
      have hv := CHAR_TO_VALUE_get (n % BASE) (Nat.mod_lt n (by decide))
      simp only [Except.bind, decodeStep, hv]
      rw [Nat.div_add_mod' n BASE]

theorem dictGet_insert_self {κ α : Type} [DecidableEq κ] (k : κ) (v : α)
    (m : List (κ × α)) : dictGet k (dictInsert k v m) = some v := by
  induction m with
  | nil => simp [dictInsert, dictGet]
  | cons p rest ih =>
    obtain ⟨k1, v1⟩ := p
    by_cases hk : k1 = k
    · simp [dictInsert, dictGet, hk]
    · simp [dictInsert, dictGet, hk, ih]

theorem dictGet_insert_ne {κ α : Type} [DecidableEq κ] (k k2 : κ) (v : α)
    (m : List (κ × α)) (hne : k2 ≠ k) :
    dictGet k2 (dictInsert k v m) = dictGet k2 m := by
  have hnk : ¬ k = k2 := fun h => hne h.symm
  induction m with
  | nil => simp [dictInsert, dictGet, hnk]
  | cons p rest ih =>
    obtain ⟨k1, v1⟩ := p
    by_cases hk : k1 = k
    · subst hk
      simp [dictInsert, dictGet, hnk]
    · simp only [dictInsert, if_neg hk]
      by_cases hk2 : k1 = k2
      · simp [dictGet, hk2]
      · simp [dictGet, hk2, ih]

theorem Heap.get_set_self (h : Heap) (r : Ref) (e : ShortURL) :
    (h.set r e).get r = some e := by
  simp [Heap.get, Heap.set, dictGet_insert_self]

theorem Heap.get_set_ne (h : Heap) (r r2 : Ref) (e : ShortURL) (hne : r2 ≠ r) :
    (h.set r e).get r2 = h.get r2 := by
  simp [Heap.get, Heap.set, dictGet_insert_ne _ _ _ _ hne]

theorem Heap.get_alloc (h : Heap) (e : ShortURL) :
    (h.alloc e).2.get (h.alloc e).1 = some e := by
  simp [Heap.get, Heap.alloc, dictGet_insert_self]

theorem generate_unique_code_fresh (gen : Nat → Str) (s : RepoState) :
    ∀ (fuel k : Nat) (code : Str),
      ShortenerService.generate_unique_code gen s k fuel = some code →
        s.get_by_code code = none := by
  intro fuel
  induction fuel with
  | zero =>
    intro k code hc
    simp [ShortenerService.generate_unique_code] at hc
  | succ n ih =>
    intro k code hc
    rw [ShortenerService.generate_unique_code] at hc
    by_cases hg : s.get_by_code (gen k) = none
    · simp only [if_pos hg, Option.some.injEq] at hc
      rw [← hc]
      exact hg
    · simp only [if_neg hg] at hc
      exact ih (k + 1) code hc

theorem URL_make_valid (raw : Str)
    (hs : (urlparse raw).scheme = "http".toList ∨ (urlparse raw).scheme = "https".toList)
    (hn : (urlparse raw).netloc ≠ []) :
    URL.make raw = some (urlunparse ⟨pyLower (urlparse raw).scheme,
      pyLower (urlparse raw).netloc, (urlparse raw).path, (urlparse raw).params,
      (urlparse raw).query, (urlparse raw).fragment⟩) := by
  have hsne : (urlparse raw).scheme ≠ [] := by
    rcases hs with h | h <;> rw [h] <;> decide
  have hsh : ¬ ((urlparse raw).scheme ≠ "http".toList ∧
      (urlparse raw).scheme ≠ "https".toList) := by
    rcases hs with h | h <;> simp [h]
  have hcond : ¬ ((urlparse raw).scheme = [] ∨ (urlparse raw).netloc = []) := by
    rintro (h | h)
    · exact hsne h
    · exact hn h
  simp only [URL.make, if_neg hcond, if_neg hsh]

theorem lookupValue_eq_none_iff (c : Char) :
    ∀ (l : Str) (i : Nat), lookupValue c l i = none ↔ c ∉ l := by
  intro l
  induction l with
  | nil => intro i; simp [lookupValue]
  | cons a rest ih =>
    intro i
    by_cases ha : a = c
    · simp [lookupValue, ha]
    · have hca : ¬ c = a := fun h => ha h.symm
      simp [lookupValue, ha, ih (i + 1), hca]

theorem CHAR_TO_VALUE_eq_none_iff (c : Char) :
    CHAR_TO_VALUE c = none ↔ c ∉ ALPHABET :=
  lookupValue_eq_none_iff c ALPHABET 0

theorem decode_ok_of_valid :
    ∀ (s : Str) (acc : Nat), (∀ c ∈ s, c ∈ ALPHABET) →
      ∃ n, List.foldlM decodeStep acc s = .ok n := by
  intro s
  induction s with
  | nil => intro acc _; exact ⟨acc, rfl⟩
  | cons c rest ih =>
    intro acc hall
    have hc : c ∈ ALPHABET := hall c (List.mem_cons_self c rest)
    obtain ⟨v, hv⟩ : ∃ v, CHAR_TO_VALUE c = some v := by
      cases hcv : CHAR_TO_VALUE c with
      | none => exact absurd ((CHAR_TO_VALUE_eq_none_iff c).mp hcv) (by simp [hc])
      | some v => exact ⟨v, rfl⟩
    obtain ⟨n, hn⟩ := ih (acc * BASE + v) (fun d hd => hall d (List.mem_cons_of_mem c hd))
    refine ⟨n, ?_⟩
    simp only [List.foldlM, decodeStep, hv]
    exact hn

theorem decode_error_of_invalid :
    ∀ (s : Str) (acc : Nat), (∃ c ∈ s, c ∉ ALPHABET) →
      ∃ msg, List.foldlM decodeStep acc s = .error msg := by
  intro s
  induction s with
  | nil => intro acc h; simp at h
  | cons c rest ih =>
    intro acc hbad
    by_cases hc : c ∈ ALPHABET
    · obtain ⟨v, hv⟩ : ∃ v, CHAR_TO_VALUE c = some v := by
        cases hcv : CHAR_TO_VALUE c with
        | none => exact absurd ((CHAR_TO_VALUE_eq_none_iff c).mp hcv) (by simp [hc])
        | some v => exact ⟨v, rfl⟩
      have hrest : ∃ d ∈ rest, d ∉ ALPHABET := by
        obtain ⟨d, hd, hdn⟩ := hbad
        rcases List.mem_cons.mp hd with h | h
        · exact absurd hc (h ▸ hdn)
        · exact ⟨d, h, hdn⟩
      obtain ⟨msg, hmsg⟩ := ih (acc * BASE + v) hrest
      refine ⟨msg, ?_⟩
      simp only [List.foldlM, decodeStep, hv]
      exact hmsg
    · have hcv : CHAR_TO_VALUE c = none := (CHAR_TO_VALUE_eq_none_iff c).mpr hc
      refine ⟨"Invalid base62 character", ?_⟩
      simp only [List.foldlM, decodeStep, hcv]
      rfl

theorem resolveN_known (code : Str) (s : RepoState) (r : Ref)
    (hr : s.get_by_code code = some r) :
    ∀ (N : Nat) (h : Heap) (e : ShortURL), h.get r = some e →
      ∃ h1, ShortenerService.resolveN code N (h, s) =
          (List.replicate N (.ok r), h1, s) ∧
        h1.get r = some { e with hits := e.hits + N } ∧
        ∀ r2, r2 ≠ r → h1.get r2 = h.get r2 := by
  intro N
  induction N with
  | zero =>
    intro h e he
    refine ⟨h, by simp [ShortenerService.resolveN], ?_, fun r2 _ => rfl⟩
    simpa using he
  | succ n ih =>
    intro h e he
    have hres : ShortenerService.resolve_url code h s =
        (.ok r, h.set r e.increment_hits, s) := by
      simp [ShortenerService.resolve_url, hr, he]
    have hset : (h.set r e.increment_hits).get r = some e.increment_hits :=
      Heap.get_set_self h r e.increment_hits
    obtain ⟨h1, heq, hget, hoth⟩ := ih (h.set r e.increment_hits) e.increment_hits hset
    refine ⟨h1, ?_, ?_, ?_⟩
    · rw [ShortenerService.resolveN, hres]
      simp only [heq, List.replicate_succ]
    · rw [hget]
      have harith : e.hits + 1 + n = e.hits + (n + 1) := by omega
      simp [ShortURL.increment_hits, harith]
    · intro r2 hne
      rw [hoth r2 hne, Heap.get_set_ne h r r2 e.increment_hits hne]

/-! ## Claim theorems -/

/-- C1: resolving a code that no stored entity maps to leaves heap and
repository unchanged, but the source raises the URLAlreadyShortenedError
class, not the ShortURLNotFoundError class that the claim and the
docstring of resolve_url require. -/
theorem resolve_unknown_code_raises_already_shortened :
    ShortenerService.resolve_url "missing".toList Heap.empty RepoState.init =
      (.error .URLAlreadyShortenedError "missing".toList, Heap.empty, RepoState.init) ∧
    ExcClass.URLAlreadyShortenedError ≠ ExcClass.ShortURLNotFoundError :=
  ⟨rfl, by decide⟩

/-- C2: shortening a raw URL whose normalised form is already stored
fails with the URLAlreadyShortenedError kind carrying the short code of
the existing entity, returns no mapping, and leaves heap and repository
exactly as they were. -/
theorem shorten_duplicate_rejected (gen : Nat → Str) (fuel : Nat) (raw : Str)
    (h : Heap) (s : RepoState) (v : Str) (r : Ref) (e : ShortURL)
    (hmk : URL.make raw = some v)
    (hex : s.get_by_original v = some r)
    (he : h.get r = some e) :
    ShortenerService.shorten_url gen fuel raw h s =
      (.error .URLAlreadyShortenedError e.short_code, h, s) := by
  simp [ShortenerService.shorten_url, hmk, hex, he]

/-- Witness for C2 at a concrete input that differs from the stored URL
only in scheme and host casing. -/
theorem shorten_duplicate_rejected_witness :
    URL.make "HTTPS://Example.COM".toList = some "https://example.com".toList ∧
    exRepo.get_by_original "https://example.com".toList = some 0 ∧
    exHeap.get 0 = some exEntity ∧
    ShortenerService.shorten_url exGen 1 "HTTPS://Example.COM".toList exHeap exRepo =
      (.error .URLAlreadyShortenedError exEntity.short_code, exHeap, exRepo) :=
  ⟨by decide, by decide, by decide,
    shorten_duplicate_rejected exGen 1 "HTTPS://Example.COM".toList exHeap exRepo
      "https://example.com".toList 0 exEntity (by decide) (by decide) (by decide)⟩

/-- C3: shortening a valid, not yet stored URL succeeds: the new entity
has hits 0, the normalised URL, the id allocated by next_id (with the
counter advanced), and a code that get_by_code reported absent before
the insertion; afterwards both indices return the same object reference. -/
theorem shorten_new_url_creates_entity (gen : Nat → Str) (fuel : Nat) (raw : Str)
    (h : Heap) (s : RepoState) (v code : Str)
    (hmk : URL.make raw = some v)
    (hnew : s.get_by_original v = none)
    (hcode : ShortenerService.generate_unique_code gen s 0 fuel = some code) :
    s.get_by_code code = none ∧
    ∃ r h1 s1,
      ShortenerService.shorten_url gen fuel raw h s = (.ok r, h1, s1) ∧
      h1.get r = some ⟨s.id_counter, v, code, 0⟩ ∧
      s1.get_by_code code = some r ∧
      s1.get_by_original v = some r ∧
      s1.id_counter = s.id_counter + 1 := by
  constructor
  · exact generate_unique_code_fresh gen s fuel 0 code hcode
  · have hget : (Heap.mk (dictInsert h.next ⟨s.id_counter, v, code, 0⟩ h.objs)
        (h.next + 1)).get h.next = some ⟨s.id_counter, v, code, 0⟩ := by
      simp [Heap.get, dictGet_insert_self]
    refine ⟨h.next,
      ⟨dictInsert h.next ⟨s.id_counter, v, code, 0⟩ h.objs, h.next + 1⟩,
      ⟨dictInsert code h.next s.storage, dictInsert v h.next s.url_index,
        s.id_counter + 1⟩, ?_, ?_, ?_, ?_, rfl⟩
    · simp [ShortenerService.shorten_url, hmk, hnew, hcode, Heap.alloc,
        RepoState.next_id, RepoState.add, hget]
    · simpa using hget
    · simp [RepoState.get_by_code, dictGet_insert_self]
    · simp [RepoState.get_by_original, dictGet_insert_self]

/-- Witness for C3: shortening a fresh URL over the initial state. -/
theorem shorten_new_url_creates_entity_witness :
    URL.make "https://Example.com/Path".toList =
      some "https://example.com/Path".toList ∧
    RepoState.init.get_by_original "https://example.com/Path".toList = none ∧
    ShortenerService.generate_unique_code exGen RepoState.init 0 1 = some "a".toList ∧
    (RepoState.init.get_by_code "a".toList = none ∧
      ∃ r h1 s1,
        ShortenerService.shorten_url exGen 1 "https://Example.com/Path".toList
          Heap.empty RepoState.init = (.ok r, h1, s1) ∧
        h1.get r = some ⟨RepoState.init.id_counter, "https://example.com/Path".toList,
          "a".toList, 0⟩ ∧
        s1.get_by_code "a".toList = some r ∧
        s1.get_by_original "https://example.com/Path".toList = some r ∧
        s1.id_counter = RepoState.init.id_counter + 1) :=
  ⟨by decide, by decide, by decide,
    shorten_new_url_creates_entity exGen 1 "https://Example.com/Path".toList
      Heap.empty RepoState.init "https://example.com/Path".toList "a".toList
      (by decide) (by decide) (by decide)⟩

/-- C4: resolving a stored code returns the stored reference itself and
bumps only its hits field by exactly one: id, original_url and
short_code are kept, every other reference and the repository state are
untouched; N successive resolutions raise hits by exactly N and every
call returns the same reference (hence the same original_url). -/
theorem resolve_known_code_increments_hits (code : Str) (h : Heap) (s : RepoState)
    (r : Ref) (e : ShortURL)
    (hr : s.get_by_code code = some r)
    (he : h.get r = some e) :
    ShortenerService.resolve_url code h s =
      (.ok r, h.set r { e with hits := e.hits + 1 }, s) ∧
    (h.set r { e with hits := e.hits + 1 }).get r = some { e with hits := e.hits + 1 } ∧
    (∀ r2, r2 ≠ r → (h.set r { e with hits := e.hits + 1 }).get r2 = h.get r2) ∧
    ∀ N, ∃ h1, ShortenerService.resolveN code N (h, s) =
        (List.replicate N (.ok r), h1, s) ∧
      h1.get r = some { e with hits := e.hits + N } ∧
      ∀ r2, r2 ≠ r → h1.get r2 = h.get r2 := by
  refine ⟨?_, Heap.get_set_self h r _, fun r2 hne => Heap.get_set_ne h r r2 _ hne, ?_⟩
  · simp [ShortenerService.resolve_url, hr, he, ShortURL.increment_hits]
  · intro N
    exact resolveN_known code s r hr N h e he

/-- Witness for C4: resolving the stored demonstration code once. -/
theorem resolve_known_code_increments_hits_witness :
    exRepo.get_by_code "abc123".toList = some 0 ∧
    exHeap.get 0 = some exEntity ∧
    ShortenerService.resolve_url "abc123".toList exHeap exRepo =
      (.ok 0, exHeap.set 0 { exEntity with hits := exEntity.hits + 1 }, exRepo) :=
  ⟨by decide, by decide,
    (resolve_known_code_increments_hits "abc123".toList exHeap exRepo 0 exEntity
      (by decide) (by decide)).1⟩

/-- C5: a raw string parsing to scheme http/https (the parser lowercases
any input casing of the scheme) with a host present constructs
successfully, yielding the reassembly of the lowercased scheme and
netloc with path, params, query and fragment exactly as parsed; any
second valid input agreeing on those components up to scheme/netloc
casing constructs the same value. -/
theorem url_value_normalization (raw : Str)
    (hs : (urlparse raw).scheme = "http".toList ∨ (urlparse raw).scheme = "https".toList)
    (hn : (urlparse raw).netloc ≠ []) :
    URL.make raw = some (urlunparse ⟨pyLower (urlparse raw).scheme,
      pyLower (urlparse raw).netloc, (urlparse raw).path, (urlparse raw).params,
      (urlparse raw).query, (urlparse raw).fragment⟩) ∧
    ∀ raw2,
      ((urlparse raw2).scheme = "http".toList ∨
        (urlparse raw2).scheme = "https".toList) →
      (urlparse raw2).netloc ≠ [] →
      pyLower (urlparse raw2).scheme = pyLower (urlparse raw).scheme →
      pyLower (urlparse raw2).netloc = pyLower (urlparse raw).netloc →
      (urlparse raw2).path = (urlparse raw).path →
      (urlparse raw2).params = (urlparse raw).params →
      (urlparse raw2).query = (urlparse raw).query →
      (urlparse raw2).fragment = (urlparse raw).fragment →
      URL.make raw2 = URL.make raw := by
  refine ⟨URL_make_valid raw hs hn, ?_⟩
  intro raw2 hs2 hn2 h1 h2 h3 h4 h5 h6
  rw [URL_make_valid raw2 hs2 hn2, URL_make_valid raw hs hn, h1, h2, h3, h4, h5, h6]

/-- Witness for C5: an upper-cased scheme and host normalise to the
lower-cased value, equal to the value built from the lower-case input. -/
theorem url_value_normalization_witness :
    ((urlparse "HTTPS://Example.COM/Path?Q=a#Frag".toList).scheme = "http".toList ∨
      (urlparse "HTTPS://Example.COM/Path?Q=a#Frag".toList).scheme = "https".toList) ∧
    URL.make "HTTPS://Example.COM/Path?Q=a#Frag".toList =
      some "https://example.com/Path?Q=a#Frag".toList ∧
    URL.make "https://example.com/Path?Q=a#Frag".toList =
      URL.make "HTTPS://Example.COM/Path?Q=a#Frag".toList :=
  ⟨by decide,
    by
      rw [(url_value_normalization "HTTPS://Example.COM/Path?Q=a#Frag".toList
        (by decide) (by decide)).1]
      decide,
    (url_value_normalization "HTTPS://Example.COM/Path?Q=a#Frag".toList
      (by decide) (by decide)).2 "https://example.com/Path?Q=a#Frag".toList
      (by decide) (by decide) (by decide) (by decide) (by decide) (by decide)
      (by decide) (by decide)⟩

/-- C6: a string whose parse lacks a scheme or a netloc, or carries a
scheme other than http/https, fails URL construction, and shorten_url
rejects it with the InvalidURLError kind leaving heap and repository
untouched. -/
theorem invalid_url_construction_fails (gen : Nat → Str) (fuel : Nat) (raw : Str)
    (h : Heap) (s : RepoState)
    (hbad : (urlparse raw).scheme = [] ∨ (urlparse raw).netloc = [] ∨
      ((urlparse raw).scheme ≠ "http".toList ∧
        (urlparse raw).scheme ≠ "https".toList)) :
    URL.make raw = none ∧
    ShortenerService.shorten_url gen fuel raw h s =
      (.error .InvalidURLError raw, h, s) := by
  have hmk : URL.make raw = none := by
    rcases hbad with hb | hb | hb
    · simp [URL.make, hb]
    · simp [URL.make, hb]
    · by_cases hcond : (urlparse raw).scheme = [] ∨ (urlparse raw).netloc = []
      · simp [URL.make, if_pos hcond]
      · have hb1 : ¬ (urlparse raw).scheme = "http".toList := hb.1
        have hb2 : ¬ (urlparse raw).scheme = "https".toList := hb.2
        simp only [URL.make, if_neg hcond]
        rw [if_pos ⟨hb1, hb2⟩]
  exact ⟨hmk, by simp [ShortenerService.shorten_url, hmk]⟩

/-- Witness for C6: no scheme at all, and the unsupported scheme ftp. -/
theorem invalid_url_construction_fails_witness :
    (urlparse "example.com".toList).scheme = [] ∧
    ((urlparse "ftp://host/x".toList).scheme ≠ "http".toList ∧
      (urlparse "ftp://host/x".toList).scheme ≠ "https".toList) ∧
    URL.make "example.com".toList = none ∧
    ShortenerService.shorten_url exGen 1 "ftp://host/x".toList Heap.empty
      RepoState.init =
      (.error .InvalidURLError "ftp://host/x".toList, Heap.empty, RepoState.init) :=
  ⟨by decide, by decide,
    (invalid_url_construction_fails exGen 1 "example.com".toList Heap.empty
      RepoState.init (Or.inl (by decide))).1,
    (invalid_url_construction_fails exGen 1 "ftp://host/x".toList Heap.empty
      RepoState.init (Or.inr (Or.inr ⟨by decide, by decide⟩))).2⟩

/-- C7: decode inverts encode on every non-negative integer, and zero
encodes to the one-character string 0. -/
theorem base62_roundtrip :
    (∀ n : Nat, ∃ s, encode_base62 (n : Int) = .ok s ∧ decode_base62 s = .ok n) ∧
    encode_base62 0 = .ok "0".toList := by
  constructor
  · intro n
    by_cases h0 : n = 0
    · subst h0
      exact ⟨"0".toList, by rfl, by rfl⟩
    · refine ⟨encodeLoop n, ?_, decode_encodeLoop n⟩
      have h1 : ¬ ((n : Int) < 0) := by simp
      have h2 : ¬ ((n : Int) = 0) := by exact_mod_cast h0
      simp [encode_base62, h1, h2]
  · rfl

/-- C8: encode fails on every negative input; decode fails on every
string containing a character outside the 62-symbol alphabet and
succeeds on every other string. -/
theorem base62_error_contract :
    (∀ z : Int, z < 0 → encode_base62 z = .error "number must be non-negative") ∧
    (∀ s : Str, (∃ c ∈ s, c ∉ ALPHABET) → ∃ msg, decode_base62 s = .error msg) ∧
    (∀ s : Str, (∀ c ∈ s, c ∈ ALPHABET) → ∃ n, decode_base62 s = .ok n) := by
  refine ⟨?_, ?_, ?_⟩
  · intro z hz
    simp [encode_base62, hz]
  · intro s hbad
    exact decode_error_of_invalid s 0 hbad
  · intro s hok
    exact decode_ok_of_valid s 0 hok

/-- Witness for C8 at a negative number, an invalid and a valid string. -/
theorem base62_error_contract_witness :
    ((-5 : Int) < 0 ∧ encode_base62 (-5) = .error "number must be non-negative") ∧
    ((∃ c ∈ "a!b".toList, c ∉ ALPHABET) ∧
      ∃ msg, decode_base62 "a!b".toList = .error msg) ∧
    ((∀ c ∈ "Ab9".toList, c ∈ ALPHABET) ∧
      ∃ n, decode_base62 "Ab9".toList = .ok n) :=
  ⟨⟨by decide, base62_error_contract.1 (-5) (by decide)⟩,
   ⟨by decide, base62_error_contract.2.1 "a!b".toList (by decide)⟩,
   ⟨by decide, base62_error_contract.2.2 "Ab9".toList (by decide)⟩⟩

/-- C9: the claimed race freedom fails on the unlocked source: with both
duplicate checks scheduled before either insertion, two concurrent
shorten requests for one URL both succeed, and two stored entities share
that original_url, instead of one success and one URLAlreadyShortened
failure. -/
theorem concurrent_shorten_race_two_successes :
    (runSchedule exGen 2 raceSchedule raceStart).1 =
      [.finished (.ok 0), .finished (.ok 1)] ∧
    storedWithOriginal (runSchedule exGen 2 raceSchedule raceStart).2.heap
      (runSchedule exGen 2 raceSchedule raceStart).2.repo
      "https://example.com".toList = 2 := by decide

/-- C10: clear empties only the code index: afterwards every code lookup
is absent while the URL index still answers as before, so a previously
shortened URL is still rejected as a duplicate although its code no
longer resolves. -/
theorem clear_empties_only_code_index (gen : Nat → Str) (fuel : Nat) (raw : Str)
    (h : Heap) (s : RepoState) (v : Str) (r : Ref) (e : ShortURL)
    (hmk : URL.make raw = some v)
    (hex : s.get_by_original v = some r)
    (he : h.get r = some e) :
    (∀ code, (RepoState.clear s).get_by_code code = none) ∧
    (∀ u, (RepoState.clear s).get_by_original u = s.get_by_original u) ∧
    ShortenerService.shorten_url gen fuel raw h (RepoState.clear s) =
      (.error .URLAlreadyShortenedError e.short_code, h, RepoState.clear s) ∧
    ShortenerService.resolve_url e.short_code h (RepoState.clear s) =
      (.error .URLAlreadyShortenedError e.short_code, h, RepoState.clear s) := by
  refine ⟨fun code => rfl, fun u => rfl, ?_, ?_⟩
  · have hex2 : (RepoState.clear s).get_by_original v = some r := hex
    simp [ShortenerService.shorten_url, hmk, hex2, he]
  · have hcode : (RepoState.clear s).get_by_code e.short_code = none := rfl
    simp [ShortenerService.resolve_url, hcode]

/-- Witness for C10: clearing the demonstration state. -/
theorem clear_empties_only_code_index_witness :
    URL.make "https://example.com".toList = some "https://example.com".toList ∧
    exRepo.get_by_original "https://example.com".toList = some 0 ∧
    (RepoState.clear exRepo).get_by_code "abc123".toList = none ∧
    ShortenerService.shorten_url exGen 1 "https://example.com".toList exHeap
      (RepoState.clear exRepo) =
      (.error .URLAlreadyShortenedError exEntity.short_code, exHeap,
        RepoState.clear exRepo) :=
  ⟨by decide, by decide,
    (clear_empties_only_code_index exGen 1 "https://example.com".toList exHeap
      exRepo "https://example.com".toList 0 exEntity (by decide) (by decide)
      (by decide)).1 "abc123".toList,
    (clear_empties_only_code_index exGen 1 "https://example.com".toList exHeap
      exRepo "https://example.com".toList 0 exEntity (by decide) (by decide)
      (by decide)).2.2.1⟩
